import Mathlib

/-!
Verification development for the NewRedo couchdb-utils repository.

The hard core of the repository is the document-mutation pipeline:
a paginated read stream (src/lib/couch-db-read-stream.js), a mutation
transform and progress reporter (mutateAllDocs in
src/lib/couch-db-utils.js), and a write stream
(src/lib/couchdb-write-stream.js).

The source file src/lib/couch-db-utils.js contains two generations of
mutateAllDocs.  The first generation (its transform silently skips
documents that fail validation or the idempotency check, and its
document-write handler calls the misspelled identifier reportProgess)
is embedded under gen1* names.  The second generation (validation and
idempotency failures throw and abort the run, progress reports are
throttled by reportFrequency) is embedded under the plain names.

Machine strings are modelled as Lean String; the JavaScript string
order used by the store for collection key order is modelled as
code-point-wise lexicographic comparison on the character list, which
agrees with JavaScript comparison on the ASCII identifiers used here.

The PouchDB client is an external collaborator (spec section 6); its
allDocs call is modelled over a static collection sorted by document
id: rows with id at least startkey (startkey is inclusive), after
dropping `skip` rows, limited to `limit` rows; total_rows is the size
of the whole collection.
-/

/-- Code-point-wise lexicographic comparison of character lists.  Models the
JavaScript relational comparison of strings used by the store for key order. -/
def charListLt : List Char → List Char → Bool
  | [], [] => false
  | [], _ :: _ => true
  | _ :: _, [] => false
  | a :: as, b :: bs =>
    if a.toNat < b.toNat then true
    else if b.toNat < a.toNat then false
    else charListLt as bs

/-- Comparison of strings, via their character lists. -/
def strLt (a b : String) : Bool := charListLt a.data b.data

/-- Helper for strStartsWith: the first list is a leading segment of the second. -/
def listStartsWith : List Char → List Char → Bool
  | [], _ => true
  | _ :: _, [] => false
  | p :: ps, c :: cs => p == c && listStartsWith ps cs

/-- Models JavaScript String.prototype.startsWith, used by the transform as
doc._id.startsWith("_design/"). -/
def strStartsWith (s pat : String) : Bool := listStartsWith pat.data s.data

/-- A CouchDB document: its unique id plus the remaining fields, modelled as a
flat association list of string-valued fields (field order is JavaScript object
insertion order, which jsonStableStringify deliberately ignores). -/
structure Doc where
  _id : String
  body : List (String × String)
deriving DecidableEq, Repr

/-- Insert a field into a key-sorted field list (helper for sortFields). -/
def insertField (p : String × String) : List (String × String) → List (String × String)
  | [] => [p]
  | q :: qs => if strLt q.1 p.1 then q :: insertField p qs else p :: q :: qs

/-- Sort fields by key (insertion sort), as the json-stable-stringify library
serializes object keys in sorted order regardless of insertion order. -/
def sortFields : List (String × String) → List (String × String)
  | [] => []
  | p :: ps => insertField p (sortFields ps)

/-- Render one field of the canonical serialization. -/
def renderField (p : String × String) : String :=
  "\x22" ++ p.1 ++ "\x22:\x22" ++ p.2 ++ "\x22"

/-- Models the json-stable-stringify library applied to a whole document
(the _id field included, as in the source): a deterministic serialization
with object keys in sorted order, so that it is stable under field
reordering. -/
def jsonStableStringify (d : Doc) : String :=
  "\x7b" ++ String.intercalate "," ((sortFields (("_id", d._id) :: d.body)).map renderField) ++ "\x7d"

/-- Models doc._id.startsWith("_design/") from the transform. -/
def isDesignDoc (d : Doc) : Bool := strStartsWith d._id "_design/"

/-- The stats record of mutateAllDocs: { total, ignored, written }. -/
structure RunStats where
  total : Nat
  written : Nat
  ignored : Nat
deriving DecidableEq, Repr

/-- The observable state of one mutateAllDocs run: the stats counters plus the
histories needed to state the spec claims (documents that entered the
transform, documents persisted by the write stream, progress messages emitted,
and the stats snapshot after each processed document). -/
structure RunState where
  stats : RunStats := { total := 0, written := 0, ignored := 0 }
  processedDocs : List Doc := []
  writtenDocs : List Doc := []
  progressLog : List String := []
  statsTrace : List RunStats := []
deriving DecidableEq, Repr

/-- Options of the second-generation mutateAllDocs. -/
structure MutateOptions where
  mutator : Doc → Doc
  validator : Option (Doc → Bool) := none
  verifyIdempotent : Bool := false
  eventEmitter : Bool := false
  reportFrequency : Option Nat := none

/-- Models the JavaScript expression options.reportFrequency || 1 (both an
absent value and 0 are falsy and fall back to 1). -/
def effFreq (opts : MutateOptions) : Nat :=
  match opts.reportFrequency with
  | none => 1
  | some f => if f = 0 then 1 else f

/-- The reportProgress closure of the second-generation mutateAllDocs
(src/lib/couch-db-utils.js lines 336-358): returns the emitted progress
message, or none when no event emitter is configured or the report is
suppressed by the frequency check. -/
def reportProgress (opts : MutateOptions) (stats : RunStats) : Option String :=
  if !opts.eventEmitter then none
  else
    let reportFrequency := effFreq opts
    let processed := stats.written + stats.ignored
    let skipReport := processed != stats.total && processed % reportFrequency != 0
    if skipReport then none
    else some (Nat.repr processed ++ "/" ++ Nat.repr stats.total ++ ", " ++
      Nat.repr stats.written ++ " written, " ++ Nat.repr stats.ignored ++ " ignored")

/-- The errors a pipeline run can reject with in this model.  The first two
are thrown by the second-generation transform; referenceError models the
ReferenceError raised by the first generation calling the undefined
identifier reportProgess; fuelExhausted is an artifact of the fuel-based
page loop and is proved unreachable for the runs the claims are about. -/
inductive RunError
  | validationFailed (id : String)
  | idempotencyFailed (id : String)
  | referenceError
  | fuelExhausted
deriving DecidableEq, Repr

/-- Per-document decision of the second-generation transform. -/
inductive Outcome
  | skipDesign
  | skipUnchanged
  | write (doc : Doc)
deriving DecidableEq, Repr

/-- Models options.validator && !options.validator(doc). -/
def validatorRejects : Option (Doc → Bool) → Doc → Bool
  | none, _ => false
  | some v, d => !(v d)

/-- One document through the second-generation transform
(src/lib/couch-db-utils.js lines 360-393).  The JavaScript mutates doc in
place; here doc1 is the document after one mutator application and doc2
after two.  Validation and idempotency failures throw; the error messages
name doc._id as it stands at the throw site (the mutated document). -/
def transformDoc (opts : MutateOptions) (doc : Doc) : Except RunError Outcome :=
  if isDesignDoc doc then Except.ok Outcome.skipDesign
  else
    let doc1 := opts.mutator doc
    if jsonStableStringify doc = jsonStableStringify doc1 then Except.ok Outcome.skipUnchanged
    else if validatorRejects opts.validator doc1 then
      Except.error (RunError.validationFailed doc1._id)
    else if opts.verifyIdempotent then
      let doc2 := opts.mutator doc1
      if jsonStableStringify doc1 = jsonStableStringify doc2 then Except.ok (Outcome.write doc2)
      else Except.error (RunError.idempotencyFailed doc2._id)
    else Except.ok (Outcome.write doc1)

/-- The document the run writes for an input document, if any (statement-level
view of transformDoc). -/
def writeResult (opts : MutateOptions) (d : Doc) : Option Doc :=
  match transformDoc opts d with
  | Except.ok (Outcome.write w) => some w
  | _ => none

/-- State change when the transform drops a document: stats.ignored++ and an
immediate reportProgress call. -/
def applySkip (opts : MutateOptions) (st : RunState) : RunState :=
  let stats := { st.stats with ignored := st.stats.ignored + 1 }
  { st with stats := stats,
            statsTrace := st.statsTrace ++ [stats],
            progressLog := st.progressLog ++ (reportProgress opts stats).toList }

/-- State change when the write stream persists a document: the
document-write handler runs stats.written++ and reportProgress. -/
def applyWrite (opts : MutateOptions) (st : RunState) (w : Doc) : RunState :=
  let stats := { st.stats with written := st.stats.written + 1 }
  { st with stats := stats,
            writtenDocs := st.writtenDocs ++ [w],
            statsTrace := st.statsTrace ++ [stats],
            progressLog := st.progressLog ++ (reportProgress opts stats).toList }

/-- One document through transform plus writer in the second generation.  A
thrown error aborts the pipeline with the state reached so far. -/
def processDoc (opts : MutateOptions) (st : RunState) (doc : Doc) :
    Except (RunError × RunState) RunState :=
  match transformDoc opts doc with
  | Except.error e => Except.error (e, { st with processedDocs := st.processedDocs ++ [doc] })
  | Except.ok Outcome.skipDesign =>
      Except.ok (applySkip opts { st with processedDocs := st.processedDocs ++ [doc] })
  | Except.ok Outcome.skipUnchanged =>
      Except.ok (applySkip opts { st with processedDocs := st.processedDocs ++ [doc] })
  | Except.ok (Outcome.write w) =>
      Except.ok (applyWrite opts { st with processedDocs := st.processedDocs ++ [doc] } w)

/-- Documents of one page, one at a time through the pipeline stages; the
first thrown error aborts (documents are processed strictly one at a time,
spec section 5). -/
def processList (step : RunState → Doc → Except (RunError × RunState) RunState) :
    RunState → List Doc → Except (RunError × RunState) RunState
  | st, [] => Except.ok st
  | st, d :: ds =>
    match step st d with
    | Except.error e => Except.error e
    | Except.ok st1 => processList step st1 ds

/-- One fetch of the paginated read stream, as observed from outside: the
position (startkey) it was issued with, the rows it returned, and the value
it emitted on the "total" event. -/
structure FetchRecord where
  position : Option String
  rows : List Doc
  totalEmitted : Nat
deriving DecidableEq, Repr

/-- Models PouchDB db.allDocs over a static collection sorted by id:  rows
with id at least startkey (startkey is inclusive), after dropping `skip`
rows, limited to `limit` rows.  The external store client is consumed, not
implemented, by the repository (spec section 6). -/
def allDocsRows (db : List Doc) (startkey : Option String) (skip limit : Nat) : List Doc :=
  let sel := match startkey with
    | none => db
    | some k => db.filter (fun d => !strLt d._id k)
  (sel.drop skip).take limit

/-- Models the skip option of the read stream: this._key == null ? 0 : 1. -/
def skipOf : Option String → Nat
  | none => 0
  | some _ => 1

/-- Models result.rows[result.rows.length - 1].id, the position the stream
advances to after a page. -/
def lastId (rows : List Doc) : Option String := rows.getLast?.map (fun d => d._id)

/-- Updates stats.total, as the coordinator's listener
source.on("total", val => stats.total = val) does on every "total" event. -/
def setTotal (st : RunState) (n : Nat) : RunState :=
  { st with stats := { st.stats with total := n } }

/-- The page loop of CouchDbReadStream._read (src/lib/couch-db-read-stream.js
lines 46-78) wired to a per-document downstream step, with the write stream
and coordinator effects supplied by the step.  Each iteration fetches a page
of at most 10 rows (the limit the stream passes to its own re-read), emits
the collection total (total_rows, the size of the static collection),
terminates on an empty page, and otherwise advances the position to the last
returned id.  The model issues the next fetch only once the current page's
documents have been consumed downstream; in the source the re-read at lines
72-75 is scheduled on push success and can issue one further fetch before a
downstream rejection propagates, so this embedding is used to settle
properties of completed runs and of the documents processed and written up
to a failure, and no theorem below asserts anything about fetches issued
after a failure.  The fuel argument is a modelling device bounding the
number of fetches; runs are invoked with enough fuel that it is never
exhausted. -/
def readPages (step : RunState → Doc → Except (RunError × RunState) RunState)
    (db : List Doc) :
    Nat → Option String → RunState →
    List FetchRecord × Except (RunError × RunState) RunState
  | 0, _, st => ([], Except.error (RunError.fuelExhausted, st))
  | fuel + 1, key, st =>
    match allDocsRows db key (skipOf key) 10 with
    | [] => ([{ position := key, rows := [], totalEmitted := db.length }],
             Except.ok (setTotal st db.length))
    | r :: rs =>
      match processList step (setTotal st db.length) (r :: rs) with
      | Except.error e =>
          ([{ position := key, rows := r :: rs, totalEmitted := db.length }], Except.error e)
      | Except.ok st2 =>
          let next := readPages step db fuel (lastId (r :: rs)) st2
          ({ position := key, rows := r :: rs, totalEmitted := db.length } :: next.1, next.2)

/-- The second-generation mutateAllDocs (src/lib/couch-db-utils.js lines
319-424) over a static collection:  read stream, transform and write stream
piped together, resolving when the stream ends and rejecting with the first
error.  Fuel db.length + 1 is enough for any run over a sorted collection. -/
def mutateAllDocs (opts : MutateOptions) (db : List Doc) :
    List FetchRecord × Except (RunError × RunState) RunState :=
  readPages (processDoc opts) db (db.length + 1) none {}

/-- Options of the first-generation mutateAllDocs.  Its validator receives
the canonical serialization string (options.validator(transformed)), unlike
the second generation which passes the mutated document. -/
structure Gen1Options where
  mutator : Doc → Doc
  validator : Option (String → Bool) := none
  verifyIdempotent : Bool := false
  eventEmitter : Bool := false

/-- One document through the first-generation transform
(src/lib/couch-db-utils.js lines 88-120): returns the document handed to the
write stream, or none when the document is dropped.  Validation and
idempotency failures merely clear the write flag (no throw); with
verifyIdempotent the chunk written is the twice-mutated document. -/
def gen1TransformDoc (opts : Gen1Options) (doc : Doc) : Option Doc :=
  if isDesignDoc doc then none
  else
    let original := jsonStableStringify doc
    let doc1 := opts.mutator doc
    let transformed := jsonStableStringify doc1
    let write1 : Bool := original != transformed
    let write2 : Bool :=
      match opts.validator with
      | some v => write1 && v transformed
      | none => write1
    if write2 && opts.verifyIdempotent then
      let doc2 := opts.mutator doc1
      if transformed == jsonStableStringify doc2 then some doc2 else none
    else if write2 then some doc1 else none

/-- The reportProgress closure of the first-generation mutateAllDocs
(src/lib/couch-db-utils.js lines 74-86): no frequency throttling. -/
def gen1ReportProgress (opts : Gen1Options) (stats : RunStats) : Option String :=
  if !opts.eventEmitter then none
  else some (Nat.repr (stats.written + stats.ignored) ++ "/" ++ Nat.repr stats.total ++ ", " ++
    Nat.repr stats.written ++ " written, " ++ Nat.repr stats.ignored ++ " ignored")

/-- One document through the first-generation transform plus writer.  On a
skip the transform increments ignored and reports progress.  On a write the
document is persisted and the document-write handler (src/lib/couch-db-utils.js
lines 123-126) increments written and then calls the undefined identifier
reportProgess, which raises a ReferenceError that the run cannot recover
from. -/
def gen1ProcessDoc (opts : Gen1Options) (st : RunState) (doc : Doc) :
    Except (RunError × RunState) RunState :=
  match gen1TransformDoc opts doc with
  | none =>
      let st1 := { st with processedDocs := st.processedDocs ++ [doc] }
      let stats := { st1.stats with ignored := st1.stats.ignored + 1 }
      Except.ok { st1 with stats := stats,
                           statsTrace := st1.statsTrace ++ [stats],
                           progressLog := st1.progressLog ++ (gen1ReportProgress opts stats).toList }
  | some w =>
      let st1 := { st with processedDocs := st.processedDocs ++ [doc] }
      let stats := { st1.stats with written := st1.stats.written + 1 }
      Except.error (RunError.referenceError,
        { st1 with stats := stats,
                   writtenDocs := st1.writtenDocs ++ [w],
                   statsTrace := st1.statsTrace ++ [stats] })

/-- The first-generation mutateAllDocs (src/lib/couch-db-utils.js lines
57-141) over a static collection. -/
def gen1MutateAllDocs (opts : Gen1Options) (db : List Doc) :
    List FetchRecord × Except (RunError × RunState) RunState :=
  readPages (gen1ProcessDoc opts) db (db.length + 1) none {}

/-- The collection is sorted strictly by document id, the order the store
serves allDocs pages in. -/
def IdSorted (db : List Doc) : Prop :=
  List.Pairwise (fun a b => strLt a._id b._id = true) db

/-- The id position reached after serving the first j documents of a sorted
collection: none at the start, otherwise the id of the j-th document.  Used
to characterize the positions the page loop visits. -/
def keyAt (db : List Doc) (j : Nat) : Option String :=
  ((db.take j).getLast?).map (fun d => d._id)

/-- Index-based characterization of the page loop over a sorted collection:
the page starting after the first j documents is (db.drop j).take 10.  This
is not a second implementation; readPages is proved equal to it for sorted
collections (readPages_eq_pagesFrom), and the claims are then settled by
induction on this form. -/
def pagesFrom (step : RunState → Doc → Except (RunError × RunState) RunState)
    (db : List Doc) :
    Nat → Nat → RunState →
    List FetchRecord × Except (RunError × RunState) RunState
  | 0, _, st => ([], Except.error (RunError.fuelExhausted, st))
  | fuel + 1, j, st =>
    match (db.drop j).take 10 with
    | [] => ([{ position := keyAt db j, rows := [], totalEmitted := db.length }],
             Except.ok (setTotal st db.length))
    | r :: rs =>
      match processList step (setTotal st db.length) (r :: rs) with
      | Except.error e =>
          ([{ position := keyAt db j, rows := r :: rs, totalEmitted := db.length }],
           Except.error e)
      | Except.ok st2 =>
          let next := pagesFrom step db fuel (j + (r :: rs).length) st2
          ({ position := keyAt db j, rows := r :: rs, totalEmitted := db.length } :: next.1,
           next.2)

/-- One step of the counters during a run: either one document was written
(written goes up by exactly 1) or one was skipped (ignored goes up by
exactly 1); the other counter is untouched. -/
def TraceStep (a b : RunStats) : Prop :=
  (b.written = a.written + 1 ∧ b.ignored = a.ignored) ∨
  (b.ignored = a.ignored + 1 ∧ b.written = a.written)

/-- The flow-control state of CouchDbReadStream: the reading flag
(src/lib/couch-db-read-stream.js lines 49-50, 61) and the number of
allDocs calls started but not yet completed. -/
structure CursorState where
  reading : Bool
  inFlight : Nat
deriving DecidableEq, Repr

/-- The events of CouchDbReadStream._read that touch the flow-control state.
readWhileReading: _read is entered while this.reading is set and returns at
once (line 49).  readStartFetch: _read is entered with the flag clear, sets
it and issues an allDocs call (lines 50-58).  fetchComplete: the allDocs
promise resolves and the handler clears the flag (line 61); the rows are
pushed and any re-read happens as later steps. -/
inductive CursorStep : CursorState → CursorState → Prop
  | readWhileReading (s : CursorState) : s.reading = true → CursorStep s s
  | readStartFetch (s : CursorState) : s.reading = false →
      CursorStep s { reading := true, inFlight := s.inFlight + 1 }
  | fetchComplete (s : CursorState) : 0 < s.inFlight →
      CursorStep s { reading := false, inFlight := s.inFlight - 1 }

/-- A fresh stream: flag clear, no fetch in flight. -/
def cursorInit : CursorState := { reading := false, inFlight := 0 }

/-- States the stream can be in during a run. -/
inductive CursorReachable : CursorState → Prop
  | init : CursorReachable cursorInit
  | step {s t : CursorState} : CursorReachable s → CursorStep s t → CursorReachable t

/-- A plain document with one body field. -/
def mkDoc (s : String) : Doc := { _id := s, body := [("k", s)] }

/-- The error a run rejected with, if any (statement-level projection). -/
def resultError (r : Except (RunError × RunState) RunState) : Option RunError :=
  match r with
  | Except.error e => some e.1
  | Except.ok _ => none

/-- The final state of a resolved run, if any (statement-level projection). -/
def resultState (r : Except (RunError × RunState) RunState) : Option RunState :=
  match r with
  | Except.error _ => none
  | Except.ok st => some st

/-- A mutator that leaves every document untouched. -/
def noopMutator : Doc → Doc := fun d => d

/-- A mutator that replaces the body with a tag field. -/
def tagMutator : Doc → Doc := fun d => { d with body := [("tag", "done")] }

/-- A non-idempotent mutator: each application prepends one more field. -/
def growMutator : Doc → Doc := fun d => { d with body := ("z", "1") :: d.body }

/-- A validator that rejects every document. -/
def falseValidator : Doc → Bool := fun _ => false

/-- The pagination scenario collection: 25 documents in key order. -/
def db25 : List Doc :=
  [mkDoc "d01", mkDoc "d02", mkDoc "d03", mkDoc "d04", mkDoc "d05",
   mkDoc "d06", mkDoc "d07", mkDoc "d08", mkDoc "d09", mkDoc "d10",
   mkDoc "d11", mkDoc "d12", mkDoc "d13", mkDoc "d14", mkDoc "d15",
   mkDoc "d16", mkDoc "d17", mkDoc "d18", mkDoc "d19", mkDoc "d20",
   mkDoc "d21", mkDoc "d22", mkDoc "d23", mkDoc "d24", mkDoc "d25"]

/-- Options for the pagination scenario: a no-op mutator, no emitter. -/
def pageOptions : MutateOptions := { mutator := noopMutator }

/-- A one-document collection (total is emitted once per fetch, so twice). -/
def dbOne : List Doc := [mkDoc "a"]

/-- A design document plus two mutable documents, in key order. -/
def dbMixed : List Doc :=
  [{ _id := "_design/x", body := [("v", "1")] }, mkDoc "a", mkDoc "b"]

/-- Options that tag every document. -/
def tagOptions : MutateOptions := { mutator := tagMutator }

/-- Options with idempotency verification and a non-idempotent mutator. -/
def growVerifyOptions : MutateOptions := { mutator := growMutator, verifyIdempotent := true }

/-- Options with an always-false validator. -/
def rejectOptions : MutateOptions := { mutator := tagMutator, validator := some falseValidator }

/-- Two mutable documents in key order (both changed by tagMutator). -/
def dbTwo : List Doc := [mkDoc "a", mkDoc "b"]

/-- The final state of the tagging run over dbMixed (computed, for witnesses). -/
def mixedFinalState : RunState :=
  (resultState (mutateAllDocs tagOptions dbMixed).2).getD {}

/-- The final state of the pagination scenario run (computed). -/
def pageFinalState : RunState :=
  (resultState (mutateAllDocs pageOptions db25).2).getD {}

/-- First-generation options that tag every document. -/
def gen1TagOptions : Gen1Options := { mutator := tagMutator }

/-- First-generation options with a no-op mutator. -/
def gen1NoopOptions : Gen1Options := { mutator := noopMutator }

/-- Sample stats for exercising reportProgress. -/
def sampleStats : RunStats := { total := 5, written := 2, ignored := 1 }

/-- Options with an event emitter and default report frequency. -/
def emitterOptions : MutateOptions := { mutator := noopMutator, eventEmitter := true }

/-- The final state of the no-op run over the one-document collection. -/
def oneFinalState : RunState :=
  (resultState (mutateAllDocs pageOptions dbOne).2).getD {}

/-- Claim C1, first alternative: the document was left canonically unchanged
by the mutator and nothing was written for it. -/
def unchangedSkip (opts : MutateOptions) (d : Doc) : Prop :=
  isDesignDoc d = false ∧
  jsonStableStringify d = jsonStableStringify (opts.mutator d) ∧
  writeResult opts d = none

/-- Claim C1, second alternative: the document id carries the reserved design
prefix, nothing was written for it, and the transform decision is the same
for every mutator (the mutator is never consulted). -/
def designSkip (opts : MutateOptions) (d : Doc) : Prop :=
  isDesignDoc d = true ∧ writeResult opts d = none ∧
  (∀ m : Doc → Doc, transformDoc { opts with mutator := m } d = Except.ok Outcome.skipDesign)

/-- Claim C1, third alternative: the mutator changed the document and a
document whose canonical serialization equals that of mutator(D) was written
for it. -/
def writtenMutated (opts : MutateOptions) (d : Doc) : Prop :=
  ∃ w, isDesignDoc d = false ∧
    jsonStableStringify d ≠ jsonStableStringify (opts.mutator d) ∧
    writeResult opts d = some w ∧
    jsonStableStringify w = jsonStableStringify (opts.mutator d)

/-- The state carried by a rejected run, if any (statement-level
projection). -/
def errorState (r : Except (RunError × RunState) RunState) : Option RunState :=
  match r with
  | Except.error e => some e.2
  | Except.ok _ => none

/-- The start-of-run stats record. -/
def zeroStats : RunStats := { total := 0, written := 0, ignored := 0 }

/-- Invariant tying the stats trace to the live counters: the snapshots form
a TraceStep chain from z and the last snapshot carries the current
counters. -/
def TraceOK (z : RunStats) (st : RunState) : Prop :=
  List.Chain TraceStep z st.statsTrace ∧
  (st.statsTrace.getLast?.getD z).written = st.stats.written ∧
  (st.statsTrace.getLast?.getD z).ignored = st.stats.ignored

/-!  ## Theorems  -/

theorem charListLt_irrefl (l : List Char) : charListLt l l = false := by
  induction l with
  | nil => rfl
  | cons a as ih => simp [charListLt, ih]

theorem charListLt_asymm : ∀ l1 l2 : List Char, charListLt l1 l2 = true → charListLt l2 l1 = false := by
  intro l1
  induction l1 with
  | nil =>
    intro l2 h
    cases l2 with
    | nil => simp [charListLt] at h
    | cons b bs => rfl
  | cons a as ih =>
    intro l2 h
    cases l2 with
    | nil => simp [charListLt] at h
    | cons b bs =>
      simp only [charListLt] at h ⊢
      rcases Nat.lt_trichotomy a.toNat b.toNat with hl | he | hg
      · simp [hl, Nat.lt_asymm hl]
      · simp [he, Nat.lt_irrefl] at h ⊢
        exact ih bs h
      · simp [hg, Nat.lt_asymm hg] at h

theorem strLt_irrefl (a : String) : strLt a a = false := charListLt_irrefl a.data

theorem strLt_asymm {a b : String} (h : strLt a b = true) : strLt b a = false :=
  charListLt_asymm a.data b.data h

theorem getLast?_cons_of_ne_nil {α : Type _} (x : α) {ys : List α} (h : ys ≠ []) :
    (x :: ys).getLast? = ys.getLast? := by
  cases ys with
  | nil => exact absurd rfl h
  | cons y ys => exact List.getLast?_cons_cons

theorem getLast?_take_succ {α : Type _} : ∀ (l : List α) (i : Nat), i < l.length →
    (l.take (i + 1)).getLast? = l[i]? := by
  intro l
  induction l with
  | nil => intro i h; simp at h
  | cons x xs ih =>
    intro i h
    cases i with
    | zero => simp
    | succ i =>
      have hx : i < xs.length := by simpa using h
      have hxs : xs ≠ [] := by
        intro hnil
        rw [hnil] at hx
        simp at hx
      have hne : xs.take (i + 1) ≠ [] := by
        simp [List.take_eq_nil_iff, hxs]
      rw [List.take_succ_cons, getLast?_cons_of_ne_nil x hne, ih i hx,
        List.getElem?_cons_succ]

theorem getLast?_eq_len_sub {α : Type _} (l : List α) : l.getLast? = l[l.length - 1]? := by
  cases l with
  | nil => rfl
  | cons x xs =>
    have h : (x :: xs).length - 1 < (x :: xs).length := by simp
    have := getLast?_take_succ (x :: xs) ((x :: xs).length - 1) h
    rw [← this]
    have hlen : (x :: xs).length - 1 + 1 = (x :: xs).length := by simp
    rw [hlen, List.take_length]

theorem filter_not_lt_of_sorted :
    ∀ (db : List Doc) (i : Nat) (h : i < db.length), IdSorted db →
      db.filter (fun d => !strLt d._id (db[i]._id)) = db.drop i := by
  intro db
  induction db with
  | nil => intro i h; simp at h
  | cons x xs ih =>
    intro i h hs
    have hx : ∀ y ∈ xs, strLt x._id y._id = true := (List.pairwise_cons.mp hs).1
    have hxs : IdSorted xs := (List.pairwise_cons.mp hs).2
    cases i with
    | zero =>
      simp only [List.getElem_cons_zero, List.drop_zero]
      apply List.filter_eq_self.mpr
      intro a ha
      rcases List.mem_cons.mp ha with rfl | hmem
      · simp [strLt_irrefl]
      · simp [strLt_asymm (hx a hmem)]
    | succ i =>
      have hi : i < xs.length := by simpa using h
      have hmem : xs[i] ∈ xs := List.getElem_mem hi
      simp only [List.getElem_cons_succ, List.drop_succ_cons]
      rw [List.filter_cons]
      simp [hx _ hmem, ih i hi hxs]

theorem keyAt_succ (db : List Doc) (i : Nat) (hi : i < db.length) :
    keyAt db (i + 1) = some (db[i]._id) := by
  unfold keyAt
  rw [getLast?_take_succ db i hi, List.getElem?_eq_getElem hi]
  rfl

theorem allDocsRows_keyAt (db : List Doc) (hs : IdSorted db) :
    ∀ (j : Nat), j ≤ db.length →
      allDocsRows db (keyAt db j) (skipOf (keyAt db j)) 10 = (db.drop j).take 10 := by
  intro j hj
  cases j with
  | zero => rfl
  | succ i =>
    have hi : i < db.length := by omega
    rw [keyAt_succ db i hi]
    simp only [allDocsRows, skipOf]
    rw [filter_not_lt_of_sorted db i hi hs]
    rw [List.drop_drop]

theorem take_drop_cons_le (db : List Doc) (j : Nat) (r : Doc) (rs : List Doc)
    (h : (db.drop j).take 10 = r :: rs) :
    j + (r :: rs).length ≤ db.length ∧ (r :: rs).length ≤ 10 ∧ j < db.length := by
  have hlen := congrArg List.length h
  simp only [List.length_take, List.length_drop] at hlen
  have hjn : j < db.length := by
    by_contra hc
    push_neg at hc
    rw [List.drop_eq_nil_of_le hc] at h
    simp at h
  constructor
  · simp [← hlen]
    omega
  constructor
  · simp [← hlen]
  exact hjn

theorem lastId_eq_keyAt (db : List Doc) (j : Nat) (r : Doc) (rs : List Doc)
    (h : (db.drop j).take 10 = r :: rs) :
    lastId (r :: rs) = keyAt db (j + (r :: rs).length) := by
  obtain ⟨hle, h10, hjn⟩ := take_drop_cons_le db j r rs h
  have hL1 : 1 ≤ (r :: rs).length := by simp
  have hidx : j + (r :: rs).length - 1 < db.length := by omega
  have key : (r :: rs).getLast? = (db.take (j + (r :: rs).length)).getLast? := by
    rw [getLast?_eq_len_sub (r :: rs)]
    rw [show j + (r :: rs).length = (j + (r :: rs).length - 1) + 1 from by omega]
    rw [getLast?_take_succ db (j + (r :: rs).length - 1) hidx]
    rw [← h]
    rw [List.getElem?_take_of_lt (by rw [h]; omega)]
    rw [List.getElem?_drop]
    congr 1
    rw [h]
    omega
  unfold lastId keyAt
  rw [key]

theorem readPages_eq_pagesFrom (step : RunState → Doc → Except (RunError × RunState) RunState)
    (db : List Doc) (hs : IdSorted db) :
    ∀ (fuel j : Nat) (st : RunState), j ≤ db.length →
      readPages step db fuel (keyAt db j) st = pagesFrom step db fuel j st := by
  intro fuel
  induction fuel with
  | zero => intro j st hj; rfl
  | succ fuel ih =>
    intro j st hj
    simp only [readPages, pagesFrom]
    rw [allDocsRows_keyAt db hs j hj]
    cases hrow : (db.drop j).take 10 with
    | nil => rfl
    | cons r rs =>
      dsimp only
      cases hp : processList step (setTotal st db.length) (r :: rs) with
      | error e => rfl
      | ok st2 =>
        dsimp only
        have hkey := lastId_eq_keyAt db j r rs hrow
        obtain ⟨hle, -, -⟩ := take_drop_cons_le db j r rs hrow
        rw [hkey, ih (j + (r :: rs).length) st2 hle]

theorem processList_append (step : RunState → Doc → Except (RunError × RunState) RunState)
    (st : RunState) (xs ys : List Doc) :
    processList step st (xs ++ ys) =
      match processList step st xs with
      | Except.error e => Except.error e
      | Except.ok st1 => processList step st1 ys := by
  induction xs generalizing st with
  | nil => simp [processList]
  | cons d ds ih =>
    simp only [List.cons_append, processList]
    cases step st d with
    | error e => rfl
    | ok st1 => exact ih st1

theorem processList_total (step : RunState → Doc → Except (RunError × RunState) RunState)
    (Hp : ∀ st d st1, step st d = Except.ok st1 → st1.stats.total = st.stats.total) :
    ∀ (ds : List Doc) (st st1 : RunState), processList step st ds = Except.ok st1 →
      st1.stats.total = st.stats.total := by
  intro ds
  induction ds with
  | nil =>
    intro st st1 h
    simp only [processList, Except.ok.injEq] at h
    rw [← h]
  | cons d ds ih =>
    intro st st1 h
    simp only [processList] at h
    cases hd : step st d with
    | error e => rw [hd] at h; simp at h
    | ok st2 =>
      rw [hd] at h
      exact (ih st2 st1 h).trans (Hp st d st2 hd)

theorem setTotal_self (n : Nat) (st : RunState) (h : st.stats.total = n) : setTotal st n = st := by
  obtain ⟨⟨t, w, i⟩, p, wd, pl, tr⟩ := st
  simp only [setTotal]
  simp only [RunStats.total] at h
  subst h
  rfl

theorem setTotal_total (n : Nat) (st : RunState) : (setTotal st n).stats.total = n := rfl

theorem drop_after_take_cons (db : List Doc) (j : Nat) (r : Doc) (rs : List Doc)
    (h : (db.drop j).take 10 = r :: rs) :
    db.drop (j + (r :: rs).length) = (db.drop j).drop 10 := by
  have hlen := congrArg List.length h
  simp only [List.length_take, List.length_drop] at hlen
  rw [List.drop_drop]
  have hA : 1 ≤ (r :: rs).length := by
    simp only [List.length_cons]
    omega
  have h1 : (r :: rs).length = 10 ∨
      (j + (r :: rs).length = db.length ∧ (r :: rs).length ≤ 10) := by omega
  rcases h1 with h1 | ⟨h1, h2⟩
  · rw [h1, Nat.add_comm j 10]
  · rw [List.drop_eq_nil_of_le (by omega), List.drop_eq_nil_of_le (by omega)]

theorem pagesFrom_flatten (step : RunState → Doc → Except (RunError × RunState) RunState)
    (Hp : ∀ st d st1, step st d = Except.ok st1 → st1.stats.total = st.stats.total)
    (db : List Doc) :
    ∀ (fuel j : Nat) (st : RunState), db.length - j + 1 ≤ fuel →
      (pagesFrom step db fuel j st).2 = processList step (setTotal st db.length) (db.drop j) := by
  intro fuel
  induction fuel with
  | zero => intro j st hf; exact absurd hf (by omega)
  | succ fuel ih =>
    intro j st hf
    simp only [pagesFrom]
    cases hrow : (db.drop j).take 10 with
    | nil =>
      have hnil : db.drop j = [] := by
        rcases List.take_eq_nil_iff.mp hrow with h10 | hnil
        · exact absurd h10 (by omega)
        · exact hnil
      rw [hnil]
      simp [processList]
    | cons r rs =>
      dsimp only
      have hsplit : db.drop j = (r :: rs) ++ db.drop (j + (r :: rs).length) := by
        rw [drop_after_take_cons db j r rs hrow, ← hrow, List.take_append_drop]
      conv_rhs => rw [hsplit]
      rw [processList_append]
      cases hp : processList step (setTotal st db.length) (r :: rs) with
      | error e => rfl
      | ok st2 =>
        dsimp only
        obtain ⟨hle, h10, hjn⟩ := take_drop_cons_le db j r rs hrow
        have ht2 : st2.stats.total = db.length := by
          rw [processList_total step Hp (r :: rs) (setTotal st db.length) st2 hp]
          exact setTotal_total db.length st
        have hfe : db.length - (j + (r :: rs).length) + 1 ≤ fuel := by
          simp only [List.length_cons] at hle hf ⊢
          omega
        have hrec := ih (j + (r :: rs).length) st2 hfe
        rw [setTotal_self db.length st2 ht2] at hrec
        exact hrec

theorem keyAt_zero (db : List Doc) : keyAt db 0 = none := rfl

theorem mutateAllDocs_eq (opts : MutateOptions) (db : List Doc) (hs : IdSorted db) :
    mutateAllDocs opts db = pagesFrom (processDoc opts) db (db.length + 1) 0 {} := by
  unfold mutateAllDocs
  rw [← keyAt_zero db]
  exact readPages_eq_pagesFrom (processDoc opts) db hs (db.length + 1) 0 {} (by omega)

theorem gen1MutateAllDocs_eq (opts : Gen1Options) (db : List Doc) (hs : IdSorted db) :
    gen1MutateAllDocs opts db = pagesFrom (gen1ProcessDoc opts) db (db.length + 1) 0 {} := by
  unfold gen1MutateAllDocs
  rw [← keyAt_zero db]
  exact readPages_eq_pagesFrom (gen1ProcessDoc opts) db hs (db.length + 1) 0 {} (by omega)

theorem processDoc_total (opts : MutateOptions) :
    ∀ (st : RunState) (d : Doc) (st1 : RunState),
      processDoc opts st d = Except.ok st1 → st1.stats.total = st.stats.total := by
  intro st d st1 h
  unfold processDoc at h
  cases ht : transformDoc opts d with
  | error e => rw [ht] at h; simp at h
  | ok o =>
    rw [ht] at h
    cases o with
    | skipDesign =>
      simp only [Except.ok.injEq] at h
      rw [← h]
      simp [applySkip]
    | skipUnchanged =>
      simp only [Except.ok.injEq] at h
      rw [← h]
      simp [applySkip]
    | write w =>
      simp only [Except.ok.injEq] at h
      rw [← h]
      simp [applyWrite]

theorem gen1ProcessDoc_total (opts : Gen1Options) :
    ∀ (st : RunState) (d : Doc) (st1 : RunState),
      gen1ProcessDoc opts st d = Except.ok st1 → st1.stats.total = st.stats.total := by
  intro st d st1 h
  unfold gen1ProcessDoc at h
  cases ht : gen1TransformDoc opts d with
  | none =>
    rw [ht] at h
    simp only [Except.ok.injEq] at h
    rw [← h]
  | some w => rw [ht] at h; simp at h

theorem mutateAllDocs_result (opts : MutateOptions) (db : List Doc) (hs : IdSorted db) :
    (mutateAllDocs opts db).2 =
      processList (processDoc opts) (setTotal {} db.length) db := by
  rw [mutateAllDocs_eq opts db hs]
  have h := pagesFrom_flatten (processDoc opts) (processDoc_total opts) db
    (db.length + 1) 0 {} (by omega)
  simpa using h

theorem gen1MutateAllDocs_result (opts : Gen1Options) (db : List Doc) (hs : IdSorted db) :
    (gen1MutateAllDocs opts db).2 =
      processList (gen1ProcessDoc opts) (setTotal {} db.length) db := by
  rw [gen1MutateAllDocs_eq opts db hs]
  have h := pagesFrom_flatten (gen1ProcessDoc opts) (gen1ProcessDoc_total opts) db
    (db.length + 1) 0 {} (by omega)
  simpa using h

theorem filterMap_cons_toList {α β : Type _} (f : α → Option β) (a : α) (l : List α) :
    (a :: l).filterMap f = (f a).toList ++ l.filterMap f := by
  cases hf : f a with
  | none => simp [List.filterMap_cons, hf]
  | some b => simp [List.filterMap_cons, hf]

theorem processDoc_ok_char (opts : MutateOptions) (st : RunState) (d : Doc) (st2 : RunState)
    (h : processDoc opts st d = Except.ok st2) :
    st2.processedDocs = st.processedDocs ++ [d] ∧
    st2.writtenDocs = st.writtenDocs ++ (writeResult opts d).toList ∧
    st2.stats.written = st.stats.written + (writeResult opts d).toList.length ∧
    st2.stats.written + st2.stats.ignored = st.stats.written + st.stats.ignored + 1 ∧
    (∃ o, transformDoc opts d = Except.ok o) := by
  unfold processDoc at h
  unfold writeResult
  cases ht : transformDoc opts d with
  | error e => rw [ht] at h; simp at h
  | ok o =>
    rw [ht] at h
    cases o with
    | skipDesign =>
      simp only [Except.ok.injEq] at h
      rw [← h]
      simp [applySkip]
      omega
    | skipUnchanged =>
      simp only [Except.ok.injEq] at h
      rw [← h]
      simp [applySkip]
      omega
    | write w =>
      simp only [Except.ok.injEq] at h
      rw [← h]
      simp [applyWrite]
      omega

theorem processList_char (opts : MutateOptions) :
    ∀ (ds : List Doc) (st st1 : RunState),
      processList (processDoc opts) st ds = Except.ok st1 →
      st1.processedDocs = st.processedDocs ++ ds ∧
      st1.writtenDocs = st.writtenDocs ++ ds.filterMap (writeResult opts) ∧
      st1.stats.written = st.stats.written + (ds.filterMap (writeResult opts)).length ∧
      st1.stats.written + st1.stats.ignored = st.stats.written + st.stats.ignored + ds.length ∧
      (∀ d ∈ ds, ∃ o, transformDoc opts d = Except.ok o) := by
  intro ds
  induction ds with
  | nil =>
    intro st st1 h
    simp only [processList, Except.ok.injEq] at h
    subst h
    simp
  | cons d ds ih =>
    intro st st1 h
    simp only [processList] at h
    cases hd : processDoc opts st d with
    | error e => rw [hd] at h; simp at h
    | ok st2 =>
      rw [hd] at h
      obtain ⟨hp2, hw2, hsw2, hsum2, hx2⟩ := processDoc_ok_char opts st d st2 hd
      obtain ⟨hp, hw, hsw, hsum, hall⟩ := ih st2 st1 h
      refine ⟨?_, ?_, ?_, ?_, ?_⟩
      · rw [hp, hp2]
        simp
      · rw [hw, hw2, filterMap_cons_toList]
        simp
      · rw [hsw, hsw2, filterMap_cons_toList]
        simp
        omega
      · simp only [List.length_cons]
        omega
      · intro x hx
        rcases List.mem_cons.mp hx with rfl | hmem
        · exact hx2
        · exact hall x hmem

theorem transformDoc_design (opts : MutateOptions) (d : Doc) (h : isDesignDoc d = true) :
    transformDoc opts d = Except.ok Outcome.skipDesign := by
  simp [transformDoc, h]

theorem transformDoc_unchanged (opts : MutateOptions) (d : Doc) (h1 : isDesignDoc d = false)
    (h2 : jsonStableStringify d = jsonStableStringify (opts.mutator d)) :
    transformDoc opts d = Except.ok Outcome.skipUnchanged := by
  simp [transformDoc, h1, h2]

theorem transformDoc_validation (opts : MutateOptions) (d : Doc) (h1 : isDesignDoc d = false)
    (h2 : jsonStableStringify d ≠ jsonStableStringify (opts.mutator d))
    (h3 : validatorRejects opts.validator (opts.mutator d) = true) :
    transformDoc opts d = Except.error (RunError.validationFailed (opts.mutator d)._id) := by
  simp [transformDoc, h1, h2, h3]

theorem transformDoc_idem_fail (opts : MutateOptions) (d : Doc) (h1 : isDesignDoc d = false)
    (h2 : jsonStableStringify d ≠ jsonStableStringify (opts.mutator d))
    (h3 : validatorRejects opts.validator (opts.mutator d) = false)
    (h4 : opts.verifyIdempotent = true)
    (h5 : jsonStableStringify (opts.mutator d) ≠
      jsonStableStringify (opts.mutator (opts.mutator d))) :
    transformDoc opts d =
      Except.error (RunError.idempotencyFailed (opts.mutator (opts.mutator d))._id) := by
  simp [transformDoc, h1, h2, h3, h4, h5]

theorem transformDoc_write_idem (opts : MutateOptions) (d : Doc) (h1 : isDesignDoc d = false)
    (h2 : jsonStableStringify d ≠ jsonStableStringify (opts.mutator d))
    (h3 : validatorRejects opts.validator (opts.mutator d) = false)
    (h4 : opts.verifyIdempotent = true)
    (h5 : jsonStableStringify (opts.mutator d) =
      jsonStableStringify (opts.mutator (opts.mutator d))) :
    transformDoc opts d = Except.ok (Outcome.write (opts.mutator (opts.mutator d))) := by
  simp [transformDoc, h1, h2, h3, h4]
  exact h5

theorem transformDoc_write_plain (opts : MutateOptions) (d : Doc) (h1 : isDesignDoc d = false)
    (h2 : jsonStableStringify d ≠ jsonStableStringify (opts.mutator d))
    (h3 : validatorRejects opts.validator (opts.mutator d) = false)
    (h4 : opts.verifyIdempotent = false) :
    transformDoc opts d = Except.ok (Outcome.write (opts.mutator d)) := by
  simp [transformDoc, h1, h2, h3, h4]

theorem transformDoc_cases (opts : MutateOptions) (d : Doc) (o : Outcome)
    (h : transformDoc opts d = Except.ok o) :
    (o = Outcome.skipDesign ∧ isDesignDoc d = true) ∨
    (o = Outcome.skipUnchanged ∧ isDesignDoc d = false ∧
       jsonStableStringify d = jsonStableStringify (opts.mutator d)) ∨
    (∃ w, o = Outcome.write w ∧ isDesignDoc d = false ∧
       jsonStableStringify d ≠ jsonStableStringify (opts.mutator d) ∧
       jsonStableStringify w = jsonStableStringify (opts.mutator d)) := by
  by_cases h1 : isDesignDoc d = true
  · rw [transformDoc_design opts d h1] at h
    simp only [Except.ok.injEq] at h
    exact Or.inl ⟨h.symm, h1⟩
  · have h1f : isDesignDoc d = false := by simpa using h1
    by_cases h2 : jsonStableStringify d = jsonStableStringify (opts.mutator d)
    · rw [transformDoc_unchanged opts d h1f h2] at h
      simp only [Except.ok.injEq] at h
      exact Or.inr (Or.inl ⟨h.symm, h1f, h2⟩)
    · by_cases h3 : validatorRejects opts.validator (opts.mutator d) = true
      · rw [transformDoc_validation opts d h1f h2 h3] at h
        simp at h
      · have h3f : validatorRejects opts.validator (opts.mutator d) = false := by simpa using h3
        by_cases h4 : opts.verifyIdempotent = true
        · by_cases h5 : jsonStableStringify (opts.mutator d) =
              jsonStableStringify (opts.mutator (opts.mutator d))
          · rw [transformDoc_write_idem opts d h1f h2 h3f h4 h5] at h
            simp only [Except.ok.injEq] at h
            exact Or.inr (Or.inr ⟨opts.mutator (opts.mutator d), h.symm, h1f, h2, h5.symm⟩)
          · rw [transformDoc_idem_fail opts d h1f h2 h3f h4 h5] at h
            simp at h
        · have h4f : opts.verifyIdempotent = false := by simpa using h4
          rw [transformDoc_write_plain opts d h1f h2 h3f h4f] at h
          simp only [Except.ok.injEq] at h
          exact Or.inr (Or.inr ⟨opts.mutator d, h.symm, h1f, h2, rfl⟩)

theorem writeResult_eq_some (opts : MutateOptions) (d : Doc) (w : Doc)
    (h : transformDoc opts d = Except.ok (Outcome.write w)) :
    writeResult opts d = some w := by
  unfold writeResult
  rw [h]

theorem writeResult_eq_none_of_skip (opts : MutateOptions) (d : Doc) (o : Outcome)
    (h : transformDoc opts d = Except.ok o) (hno : ∀ w, o ≠ Outcome.write w) :
    writeResult opts d = none := by
  unfold writeResult
  rw [h]
  cases o with
  | skipDesign => rfl
  | skipUnchanged => rfl
  | write w => exact absurd rfl (hno w)

theorem processList_ok_of_all (opts : MutateOptions) :
    ∀ (ds : List Doc) (st : RunState), (∀ d ∈ ds, ∃ o, transformDoc opts d = Except.ok o) →
      ∃ st1, processList (processDoc opts) st ds = Except.ok st1 := by
  intro ds
  induction ds with
  | nil => intro st _; exact ⟨st, rfl⟩
  | cons d ds ih =>
    intro st h
    obtain ⟨o, ho⟩ := h d (List.mem_cons_self d ds)
    have hstep : ∃ st2, processDoc opts st d = Except.ok st2 := by
      unfold processDoc
      rw [ho]
      cases o with
      | skipDesign => exact ⟨_, rfl⟩
      | skipUnchanged => exact ⟨_, rfl⟩
      | write w => exact ⟨_, rfl⟩
    obtain ⟨st2, hst2⟩ := hstep
    obtain ⟨st1, hst1⟩ := ih st2 (fun x hx => h x (List.mem_cons_of_mem d hx))
    refine ⟨st1, ?_⟩
    simp only [processList]
    rw [hst2]
    exact hst1

theorem processList_first_err (opts : MutateOptions) :
    ∀ (pre : List Doc) (st : RunState) (d : Doc) (post : List Doc) (e : RunError),
      (∀ x ∈ pre, ∃ o, transformDoc opts x = Except.ok o) →
      transformDoc opts d = Except.error e →
      ∃ stE, processList (processDoc opts) st (pre ++ d :: post) = Except.error (e, stE) ∧
        stE.processedDocs = st.processedDocs ++ pre ++ [d] ∧
        stE.writtenDocs = st.writtenDocs ++ pre.filterMap (writeResult opts) ∧
        stE.stats.written = st.stats.written + (pre.filterMap (writeResult opts)).length := by
  intro pre
  induction pre with
  | nil =>
    intro st d post e hok herr
    have hpd : processDoc opts st d =
        Except.error (e, { st with processedDocs := st.processedDocs ++ [d] }) := by
      unfold processDoc
      rw [herr]
    refine ⟨{ st with processedDocs := st.processedDocs ++ [d] }, ?_, by simp, by simp, by simp⟩
    simp only [List.nil_append, processList]
    rw [hpd]
  | cons x xs ih =>
    intro st d post e hok herr
    obtain ⟨o, ho⟩ := hok x (List.mem_cons_self x xs)
    have hstep : ∃ st2, processDoc opts st x = Except.ok st2 := by
      unfold processDoc
      rw [ho]
      cases o with
      | skipDesign => exact ⟨_, rfl⟩
      | skipUnchanged => exact ⟨_, rfl⟩
      | write w => exact ⟨_, rfl⟩
    obtain ⟨st2, hst2⟩ := hstep
    obtain ⟨hp2, hw2, hsw2, -, -⟩ := processDoc_ok_char opts st x st2 hst2
    obtain ⟨stE, hrun, hpe, hwe, hse⟩ :=
      ih st2 d post e (fun y hy => hok y (List.mem_cons_of_mem x hy)) herr
    refine ⟨stE, ?_, ?_, ?_, ?_⟩
    · simp only [List.cons_append, processList]
      rw [hst2]
      exact hrun
    · rw [hpe, hp2]
      simp
    · rw [hwe, hw2, filterMap_cons_toList]
      simp
    · rw [hse, hsw2, filterMap_cons_toList]
      simp
      omega

theorem reportProgress_some_of_freq_one (opts : MutateOptions) (stats : RunStats)
    (hemit : opts.eventEmitter = true) (hf : effFreq opts = 1) :
    (reportProgress opts stats).isSome = true := by
  simp only [reportProgress, hemit, Bool.not_true, Bool.false_eq_true, if_false, hf]
  simp [Nat.mod_one]

theorem processDoc_report_once (opts : MutateOptions) (st st1 : RunState) (d : Doc)
    (hemit : opts.eventEmitter = true) (hf : effFreq opts = 1)
    (h : processDoc opts st d = Except.ok st1) :
    st1.progressLog.length = st.progressLog.length + 1 := by
  have hlen : ∀ stats : RunStats, (reportProgress opts stats).toList.length = 1 := by
    intro stats
    have := reportProgress_some_of_freq_one opts stats hemit hf
    cases hrp : reportProgress opts stats with
    | none => rw [hrp] at this; simp at this
    | some m => simp
  unfold processDoc at h
  cases ht : transformDoc opts d with
  | error e => rw [ht] at h; simp at h
  | ok o =>
    rw [ht] at h
    cases o with
    | skipDesign =>
      simp only [Except.ok.injEq] at h
      rw [← h]
      simp [applySkip, hlen]
    | skipUnchanged =>
      simp only [Except.ok.injEq] at h
      rw [← h]
      simp [applySkip, hlen]
    | write w =>
      simp only [Except.ok.injEq] at h
      rw [← h]
      simp [applyWrite, hlen]

/-- C6: every progress message emitted by the second-generation
reportProgress has exactly the form
"{processed}/{total}, {written} written, {ignored} ignored" with
processed = written + ignored; a report is emitted if and only if
processed equals total or processed is divisible by the effective report
frequency, which defaults to 1 when reportFrequency is not supplied; and
with frequency 1 every call emits, so every processed document appends
exactly one report to the progress log. -/
theorem c6_progress_format (opts : MutateOptions) (stats : RunStats)
    (hemit : opts.eventEmitter = true) :
    (∀ m, reportProgress opts stats = some m →
        m = Nat.repr (stats.written + stats.ignored) ++ "/" ++ Nat.repr stats.total ++ ", " ++
          Nat.repr stats.written ++ " written, " ++ Nat.repr stats.ignored ++ " ignored") ∧
    ((reportProgress opts stats).isSome = true ↔
        (stats.written + stats.ignored = stats.total ∨
          (stats.written + stats.ignored) % effFreq opts = 0)) ∧
    (opts.reportFrequency = none → effFreq opts = 1) ∧
    (effFreq opts = 1 → (reportProgress opts stats).isSome = true) ∧
    (∀ (st st1 : RunState) (d : Doc), effFreq opts = 1 →
        processDoc opts st d = Except.ok st1 →
        st1.progressLog.length = st.progressLog.length + 1) := by
  refine ⟨?_, ?_, ?_, ?_, ?_⟩
  · intro m hm
    simp only [reportProgress, hemit, Bool.not_true, Bool.false_eq_true, if_false] at hm
    by_cases hc : (stats.written + stats.ignored != stats.total &&
        (stats.written + stats.ignored) % effFreq opts != 0) = true
    · rw [if_pos hc] at hm
      exact absurd hm (by simp)
    · rw [if_neg hc] at hm
      simp only [Option.some.injEq] at hm
      exact hm.symm
  · simp only [reportProgress, hemit, Bool.not_true, Bool.false_eq_true, if_false]
    by_cases hc : (stats.written + stats.ignored != stats.total &&
        (stats.written + stats.ignored) % effFreq opts != 0) = true
    · rw [if_pos hc]
      simp only [Bool.and_eq_true, bne_iff_ne] at hc
      simp [hc.1, hc.2]
    · rw [if_neg hc]
      simp only [Bool.and_eq_true, bne_iff_ne] at hc
      push_neg at hc
      constructor
      · intro _
        by_cases he : stats.written + stats.ignored = stats.total
        · exact Or.inl he
        · exact Or.inr (hc he)
      · intro _
        simp
  · intro h
    simp [effFreq, h]
  · exact reportProgress_some_of_freq_one opts stats hemit
  · intro st st1 d hf h
    exact processDoc_report_once opts st st1 d hemit hf h

/-- C6 witness: at a concrete stats record the report is emitted with the
specified shape. -/
theorem c6_progress_format_witness :
    reportProgress emitterOptions sampleStats = some "3/5, 2 written, 1 ignored" ∧
    emitterOptions.eventEmitter = true ∧
    (reportProgress emitterOptions sampleStats).isSome = true := by
  refine ⟨by rfl, rfl, ?_⟩
  exact ((c6_progress_format emitterOptions sampleStats rfl).2.2.2.1 (by rfl))

/-- C9: at most one page fetch is ever in flight: in every state the read
stream can reach, the number of started-but-uncompleted allDocs calls is at
most one, because _read returns immediately while the reading flag is set
and the flag is only cleared by the completion handler of the in-flight
fetch. -/
theorem c9_single_inflight_fetch (s : CursorState) (h : CursorReachable s) :
    s.inFlight ≤ 1 := by
  have key : ∀ t : CursorState, CursorReachable t →
      t.inFlight ≤ 1 ∧ (t.reading = false → t.inFlight = 0) := by
    intro t ht
    induction ht with
    | init => exact ⟨by simp [cursorInit], fun _ => rfl⟩
    | step hr hstep ih =>
      cases hstep with
      | readWhileReading hread => exact ih
      | readStartFetch hread =>
        obtain ⟨ih1, ih2⟩ := ih
        have h0 := ih2 hread
        refine ⟨by simp [h0], ?_⟩
        intro hx
        simp at hx
      | fetchComplete hpos =>
        obtain ⟨ih1, ih2⟩ := ih
        refine ⟨by simp; omega, fun _ => by simp; omega⟩
  exact (key s h).1

/-- C9 witness: the state reached by starting one fetch is reachable and has
exactly one fetch in flight, within the proved bound. -/
theorem c9_single_inflight_fetch_witness :
    CursorReachable { reading := true, inFlight := 1 } ∧
    ({ reading := true, inFlight := 1 } : CursorState).inFlight ≤ 1 := by
  have hreach : CursorReachable { reading := true, inFlight := 1 } :=
    CursorReachable.step CursorReachable.init (CursorStep.readStartFetch cursorInit rfl)
  exact ⟨hreach, c9_single_inflight_fetch { reading := true, inFlight := 1 } hreach⟩

theorem readPages_total_every (step : RunState → Doc → Except (RunError × RunState) RunState)
    (db : List Doc) :
    ∀ (fuel : Nat) (key : Option String) (st : RunState) (rec : FetchRecord),
      rec ∈ (readPages step db fuel key st).1 → rec.totalEmitted = db.length := by
  intro fuel
  induction fuel with
  | zero => intro key st rec h; simp [readPages] at h
  | succ fuel ih =>
    intro key st rec h
    simp only [readPages] at h
    cases hrow : allDocsRows db key (skipOf key) 10 with
    | nil =>
      rw [hrow] at h
      simp at h
      rw [h]
    | cons r rs =>
      rw [hrow] at h
      dsimp only at h
      cases hp : processList step (setTotal st db.length) (r :: rs) with
      | error e =>
        rw [hp] at h
        simp at h
        rw [h]
      | ok st2 =>
        rw [hp] at h
        simp at h
        rcases h with h | h
        · rw [h]
        · exact ih (lastId (r :: rs)) st2 rec h

theorem readPages_records_nonempty
    (step : RunState → Doc → Except (RunError × RunState) RunState)
    (db : List Doc) (fuel : Nat) (key : Option String) (st : RunState) (hf : 0 < fuel) :
    (readPages step db fuel key st).1 ≠ [] := by
  cases fuel with
  | zero => exact absurd hf (by omega)
  | succ fuel =>
    simp only [readPages]
    cases hrow : allDocsRows db key (skipOf key) 10 with
    | nil => simp
    | cons r rs =>
      dsimp only
      cases hp : processList step (setTotal st db.length) (r :: rs) with
      | error e => simp
      | ok st2 => simp

theorem readPages_final_total
    (step : RunState → Doc → Except (RunError × RunState) RunState) (db : List Doc) :
    ∀ (fuel : Nat) (key : Option String) (st st1 : RunState),
      (readPages step db fuel key st).2 = Except.ok st1 → st1.stats.total = db.length := by
  intro fuel
  induction fuel with
  | zero => intro key st st1 h; simp [readPages] at h
  | succ fuel ih =>
    intro key st st1 h
    simp only [readPages] at h
    cases hrow : allDocsRows db key (skipOf key) 10 with
    | nil =>
      rw [hrow] at h
      simp only [Except.ok.injEq] at h
      rw [← h]
      rfl
    | cons r rs =>
      rw [hrow] at h
      dsimp only at h
      cases hp : processList step (setTotal st db.length) (r :: rs) with
      | error e =>
        rw [hp] at h
        simp at h
      | ok st2 =>
        rw [hp] at h
        exact ih (lastId (r :: rs)) st2 st1 h

/-- C8 (amended): the read stream emits the total document count on every
page fetch, not exactly once.  Every emitted value equals the collection
size, a run always performs at least one fetch, and the coordinator's total
statistic therefore equals the collection size whenever a run resolves; so
the statistic is rewritten per fetch but never changes value over a static
collection. -/
theorem c8_total_every_fetch (opts : MutateOptions) (db : List Doc) :
    (∀ rec ∈ (mutateAllDocs opts db).1, rec.totalEmitted = db.length) ∧
    (mutateAllDocs opts db).1 ≠ [] ∧
    (∀ st1, (mutateAllDocs opts db).2 = Except.ok st1 → st1.stats.total = db.length) := by
  refine ⟨?_, ?_, ?_⟩
  · intro rec hrec
    exact readPages_total_every (processDoc opts) db (db.length + 1) none {} rec hrec
  · exact readPages_records_nonempty (processDoc opts) db (db.length + 1) none {} (by omega)
  · intro st1 h
    exact readPages_final_total (processDoc opts) db (db.length + 1) none {} st1 h

/-- C8 witness: the amended statement applied to the one-document run: the
first fetch record reports total 1, the record list is nonempty, and the
resolved state carries total 1. -/
theorem c8_total_every_fetch_witness :
    ({ position := none, rows := [mkDoc "a"], totalEmitted := 1 } : FetchRecord).totalEmitted
        = dbOne.length ∧
    (mutateAllDocs pageOptions dbOne).1 ≠ [] ∧
    oneFinalState.stats.total = dbOne.length := by
  refine ⟨?_, ?_, ?_⟩
  · exact (c8_total_every_fetch pageOptions dbOne).1
      { position := none, rows := [mkDoc "a"], totalEmitted := 1 } (by decide)
  · exact (c8_total_every_fetch pageOptions dbOne).2.1
  · exact (c8_total_every_fetch pageOptions dbOne).2.2 oneFinalState (by rfl)

/-- C8 counterexample: over a static one-document collection the run of
mutateAllDocs emits the "total" event twice (once per fetch: the page with
the document and the empty terminating page), refuting the claim that the
collection total is reported to the statistics exactly once. -/
theorem c8_counterexample :
    ((mutateAllDocs pageOptions dbOne).1.map (fun rec => rec.totalEmitted)) = [1, 1] ∧
    ¬((mutateAllDocs pageOptions dbOne).1.length = 1) := by
  constructor
  · rfl
  · decide

/-- C1: in every successful second-generation run over a sorted collection,
the persisted documents are exactly the per-document write results in
order (and the written counter is their count), and every enumerated
document falls into exactly one of: canonically unchanged by the mutator
and not written; reserved design id and not written, the transform decision
being independent of the mutator; or written with a body canonically equal
to mutator(D).  For a no-op mutator nothing is written and every non-design
document is skipped with the unchanged reason. -/
theorem c1_run_outcome_trichotomy (opts : MutateOptions) (db : List Doc) (st : RunState)
    (hs : IdSorted db) (hok : (mutateAllDocs opts db).2 = Except.ok st) :
    (st.writtenDocs = db.filterMap (writeResult opts) ∧
     st.stats.written = (db.filterMap (writeResult opts)).length) ∧
    (∀ d ∈ db,
      (unchangedSkip opts d ∧ ¬designSkip opts d ∧ ¬writtenMutated opts d) ∨
      (¬unchangedSkip opts d ∧ designSkip opts d ∧ ¬writtenMutated opts d) ∨
      (¬unchangedSkip opts d ∧ ¬designSkip opts d ∧ writtenMutated opts d)) ∧
    ((∀ x, opts.mutator x = x) →
      st.stats.written = 0 ∧ st.writtenDocs = [] ∧
      (∀ d ∈ db, isDesignDoc d = false →
        transformDoc opts d = Except.ok Outcome.skipUnchanged)) := by
  have hres := mutateAllDocs_result opts db hs
  rw [hres] at hok
  obtain ⟨hp, hw, hsw, hsum, hall⟩ :=
    processList_char opts db (setTotal {} db.length) st hok
  have hw0 : st.writtenDocs = db.filterMap (writeResult opts) := by
    simpa [setTotal] using hw
  have hsw0 : st.stats.written = (db.filterMap (writeResult opts)).length := by
    simpa [setTotal] using hsw
  refine ⟨⟨hw0, hsw0⟩, ?_, ?_⟩
  · intro d hd
    obtain ⟨o, ho⟩ := hall d hd
    rcases transformDoc_cases opts d o ho with
      ⟨rfl, hdes⟩ | ⟨rfl, hdes, hunch⟩ | ⟨w, rfl, hdes, hch, hwEq⟩
    · right; left
      have hwr : writeResult opts d = none :=
        writeResult_eq_none_of_skip opts d _ ho (fun w h => Outcome.noConfusion h)
      refine ⟨?_, ⟨hdes, hwr, fun m => transformDoc_design _ d hdes⟩, ?_⟩
      · intro hA
        rw [hA.1] at hdes
        simp at hdes
      · intro hC
        obtain ⟨w, hCdes, -, -, -⟩ := hC
        rw [hCdes] at hdes
        simp at hdes
    · left
      have hwr : writeResult opts d = none :=
        writeResult_eq_none_of_skip opts d _ ho (fun w h => Outcome.noConfusion h)
      refine ⟨⟨hdes, hunch, hwr⟩, ?_, ?_⟩
      · intro hB
        rw [hB.1] at hdes
        simp at hdes
      · intro hC
        obtain ⟨w, -, hCch, -, -⟩ := hC
        exact hCch hunch
    · right; right
      have hwr : writeResult opts d = some w := writeResult_eq_some opts d w ho
      refine ⟨?_, ?_, ⟨w, hdes, hch, hwr, hwEq⟩⟩
      · intro hA
        exact hch hA.2.1
      · intro hB
        rw [hB.1] at hdes
        simp at hdes
  · intro hm
    have hnone : ∀ d ∈ db, writeResult opts d = none := by
      intro d hd
      by_cases hdes : isDesignDoc d = true
      · exact writeResult_eq_none_of_skip opts d _ (transformDoc_design opts d hdes)
          (fun w h => Outcome.noConfusion h)
      · have hdf : isDesignDoc d = false := by simpa using hdes
        have hunch : jsonStableStringify d = jsonStableStringify (opts.mutator d) := by
          rw [hm d]
        exact writeResult_eq_none_of_skip opts d _ (transformDoc_unchanged opts d hdf hunch)
          (fun w h => Outcome.noConfusion h)
    have hfm : db.filterMap (writeResult opts) = [] := List.filterMap_eq_nil_iff.mpr hnone
    refine ⟨by rw [hsw0, hfm]; rfl, by rw [hw0, hfm], ?_⟩
    intro d hd hdf
    exact transformDoc_unchanged opts d hdf (by rw [hm d])

/-- C1 witness: the tagging run over the mixed collection resolves; its
written documents are the per-document write results, and the concrete
documents a (written) and the design document fall into their respective
single alternative. -/
theorem c1_run_outcome_trichotomy_witness :
    (mixedFinalState.writtenDocs = dbMixed.filterMap (writeResult tagOptions) ∧
     mixedFinalState.stats.written = (dbMixed.filterMap (writeResult tagOptions)).length) ∧
    ((unchangedSkip tagOptions (mkDoc "a") ∧ ¬designSkip tagOptions (mkDoc "a") ∧
        ¬writtenMutated tagOptions (mkDoc "a")) ∨
     (¬unchangedSkip tagOptions (mkDoc "a") ∧ designSkip tagOptions (mkDoc "a") ∧
        ¬writtenMutated tagOptions (mkDoc "a")) ∨
     (¬unchangedSkip tagOptions (mkDoc "a") ∧ ¬designSkip tagOptions (mkDoc "a") ∧
        writtenMutated tagOptions (mkDoc "a"))) := by
  have h := c1_run_outcome_trichotomy tagOptions dbMixed mixedFinalState
    (by unfold IdSorted; decide) (by rfl)
  exact ⟨h.1, h.2.1 (mkDoc "a") (by decide)⟩

/-- C2: with verifyIdempotent enabled, when the collection decomposes as
pre ++ d :: post with every document of pre passing the transform, and the
mutator changes d, passes validation, but is not idempotent at d (a second
application changes the canonical serialization), the whole run rejects
with the idempotency error naming the offending (twice-mutated) document,
and the documents processed are exactly pre ++ [d]: zero additional
documents are processed after the failing one. -/
theorem c2_idempotency_abort (opts : MutateOptions) (db : List Doc)
    (pre post : List Doc) (d : Doc)
    (hs : IdSorted db)
    (hvi : opts.verifyIdempotent = true)
    (hdb : db = pre ++ d :: post)
    (hpre : ∀ x ∈ pre, ∃ o, transformDoc opts x = Except.ok o)
    (hdes : isDesignDoc d = false)
    (hch : jsonStableStringify d ≠ jsonStableStringify (opts.mutator d))
    (hval : validatorRejects opts.validator (opts.mutator d) = false)
    (hni : jsonStableStringify (opts.mutator d) ≠
      jsonStableStringify (opts.mutator (opts.mutator d))) :
    ∃ stE, (mutateAllDocs opts db).2 =
        Except.error (RunError.idempotencyFailed (opts.mutator (opts.mutator d))._id, stE) ∧
      stE.processedDocs = pre ++ [d] := by
  subst hdb
  have herr := transformDoc_idem_fail opts d hdes hch hval hvi hni
  have hres := mutateAllDocs_result opts (pre ++ d :: post) hs
  obtain ⟨stE, hrun, hpe, -, -⟩ :=
    processList_first_err opts pre (setTotal {} (pre ++ d :: post).length) d post _ hpre herr
  refine ⟨stE, ?_, ?_⟩
  · rw [hres]
    exact hrun
  · rw [hpe]
    simp [setTotal]

/-- C2 witness: a one-document collection with a field-prepending
(non-idempotent) mutator under verifyIdempotent: the run rejects with the
idempotency error naming the document and only that document is
processed. -/
theorem c2_idempotency_abort_witness :
    ∃ stE, (mutateAllDocs growVerifyOptions [mkDoc "a"]).2 =
        Except.error (RunError.idempotencyFailed
          (growVerifyOptions.mutator (growVerifyOptions.mutator (mkDoc "a")))._id, stE) ∧
      stE.processedDocs = [] ++ [mkDoc "a"] :=
  c2_idempotency_abort growVerifyOptions [mkDoc "a"] [] [] (mkDoc "a")
    (by unfold IdSorted; decide) rfl rfl (by simp) (by decide) (by decide) rfl (by decide)

theorem gen1_processList_some_err (opts : Gen1Options) :
    ∀ (ds : List Doc) (st : RunState),
      (∃ d ∈ ds, (gen1TransformDoc opts d).isSome = true) →
      ∃ stE, processList (gen1ProcessDoc opts) st ds =
        Except.error (RunError.referenceError, stE) := by
  intro ds
  induction ds with
  | nil =>
    intro st hex
    simp at hex
  | cons d ds ih =>
    intro st hex
    cases hd : gen1TransformDoc opts d with
    | some w =>
      have hstep : ∃ stE, gen1ProcessDoc opts st d =
          Except.error (RunError.referenceError, stE) := by
        unfold gen1ProcessDoc
        rw [hd]
        exact ⟨_, rfl⟩
      obtain ⟨stE, hstep⟩ := hstep
      refine ⟨stE, ?_⟩
      simp only [processList]
      rw [hstep]
    | none =>
      have hstep : ∃ st2, gen1ProcessDoc opts st d = Except.ok st2 := by
        unfold gen1ProcessDoc
        rw [hd]
        exact ⟨_, rfl⟩
      obtain ⟨st2, hstep⟩ := hstep
      obtain ⟨x, hx, hsome⟩ := hex
      rcases List.mem_cons.mp hx with rfl | hmem
      · rw [hd] at hsome
        simp at hsome
      · obtain ⟨stE, hrun⟩ := ih st2 ⟨x, hmem, hsome⟩
        refine ⟨stE, ?_⟩
        simp only [processList]
        rw [hstep]
        exact hrun

theorem gen1_processList_ok_of_none (opts : Gen1Options) :
    ∀ (ds : List Doc) (st : RunState),
      (∀ d ∈ ds, gen1TransformDoc opts d = none) →
      ∃ st1, processList (gen1ProcessDoc opts) st ds = Except.ok st1 ∧
        st1.stats.written = st.stats.written := by
  intro ds
  induction ds with
  | nil => intro st _; exact ⟨st, rfl, rfl⟩
  | cons d ds ih =>
    intro st hall
    have hd := hall d (List.mem_cons_self d ds)
    have hstep : ∃ st2, gen1ProcessDoc opts st d = Except.ok st2 ∧
        st2.stats.written = st.stats.written := by
      unfold gen1ProcessDoc
      rw [hd]
      exact ⟨_, rfl, rfl⟩
    obtain ⟨st2, hstep, hw2⟩ := hstep
    obtain ⟨st1, hrun, hw1⟩ := ih st2 (fun x hx => hall x (List.mem_cons_of_mem d hx))
    refine ⟨st1, ?_, hw1.trans hw2⟩
    simp only [processList]
    rw [hstep]
    exact hrun

/-- C10: in the first-generation mutateAllDocs, the document-write handler
calls the undefined identifier reportProgess, so every run in which at
least one document actually reaches the writer rejects with a
ReferenceError and cannot resolve; a run resolves only when every document
is skipped, and then its written counter is 0. -/
theorem c10_gen1_write_reference_error (opts : Gen1Options) (db : List Doc)
    (hs : IdSorted db) :
    ((∃ d ∈ db, (gen1TransformDoc opts d).isSome = true) →
        ∃ stE, (gen1MutateAllDocs opts db).2 =
          Except.error (RunError.referenceError, stE)) ∧
    ((∀ d ∈ db, gen1TransformDoc opts d = none) →
        ∃ st1, (gen1MutateAllDocs opts db).2 = Except.ok st1 ∧
          st1.stats.written = 0) := by
  have hres := gen1MutateAllDocs_result opts db hs
  constructor
  · intro hex
    obtain ⟨stE, h⟩ := gen1_processList_some_err opts db (setTotal {} db.length) hex
    refine ⟨stE, ?_⟩
    rw [hres]
    exact h
  · intro hall
    obtain ⟨st1, h1, h2⟩ := gen1_processList_ok_of_none opts db (setTotal {} db.length) hall
    refine ⟨st1, ?_, ?_⟩
    · rw [hres]
      exact h1
    · rw [h2]
      rfl

/-- C10 witness: a one-document collection: with the tagging mutator the
document reaches the writer and the first-generation run rejects with the
ReferenceError; with a no-op mutator every document is skipped and the run
resolves with written 0. -/
theorem c10_gen1_write_reference_error_witness :
    (∃ stE, (gen1MutateAllDocs gen1TagOptions dbOne).2 =
        Except.error (RunError.referenceError, stE)) ∧
    (∃ st1, (gen1MutateAllDocs gen1NoopOptions dbOne).2 = Except.ok st1 ∧
        st1.stats.written = 0) := by
  constructor
  · exact (c10_gen1_write_reference_error gen1TagOptions dbOne
      (by unfold IdSorted; decide)).1 ⟨mkDoc "a", by decide, by decide⟩
  · exact (c10_gen1_write_reference_error gen1NoopOptions dbOne
      (by unfold IdSorted; decide)).2 (by decide)

theorem getLastD_cons {α : Type _} (x z : α) (xs : List α) :
    ((x :: xs).getLast?.getD z) = xs.getLast?.getD x := by
  cases xs with
  | nil => rfl
  | cons y ys =>
    rw [getLast?_cons_of_ne_nil x (by simp)]
    cases hys : (y :: ys).getLast? with
    | none => simp at hys
    | some a => simp

theorem chain_snoc {α : Type _} {R : α → α → Prop} {b : α} :
    ∀ {z : α} {l : List α}, List.Chain R z l → R (l.getLast?.getD z) b →
      List.Chain R z (l ++ [b]) := by
  intro z l
  induction l generalizing z with
  | nil =>
    intro _ hb
    exact List.Chain.cons hb List.Chain.nil
  | cons x xs ih =>
    intro h hb
    rw [List.chain_cons] at h
    rw [getLastD_cons x z xs] at hb
    exact List.Chain.cons h.1 (ih h.2 hb)

theorem applySkip_traceOK (opts : MutateOptions) (z : RunStats) (st : RunState)
    (h : TraceOK z st) : TraceOK z (applySkip opts st) := by
  obtain ⟨hchain, hwl, hil⟩ := h
  unfold TraceOK applySkip
  simp only
  refine ⟨?_, ?_, ?_⟩
  · apply chain_snoc hchain
    right
    constructor
    · simp [hil]
    · simp [hwl]
  · simp
  · simp

theorem applyWrite_traceOK (opts : MutateOptions) (z : RunStats) (st : RunState) (w : Doc)
    (h : TraceOK z st) : TraceOK z (applyWrite opts st w) := by
  obtain ⟨hchain, hwl, hil⟩ := h
  unfold TraceOK applyWrite
  simp only
  refine ⟨?_, ?_, ?_⟩
  · apply chain_snoc hchain
    left
    constructor
    · simp [hwl]
    · simp [hil]
  · simp
  · simp

theorem processDoc_traceOK (opts : MutateOptions) (z : RunStats) (st st1 : RunState) (d : Doc)
    (hstep : processDoc opts st d = Except.ok st1) (h : TraceOK z st) : TraceOK z st1 := by
  have hmid : TraceOK z { st with processedDocs := st.processedDocs ++ [d] } := by
    obtain ⟨hchain, hwl, hil⟩ := h
    exact ⟨hchain, hwl, hil⟩
  unfold processDoc at hstep
  cases ht : transformDoc opts d with
  | error e => rw [ht] at hstep; simp at hstep
  | ok o =>
    rw [ht] at hstep
    cases o with
    | skipDesign =>
      simp only [Except.ok.injEq] at hstep
      rw [← hstep]
      exact applySkip_traceOK opts z _ hmid
    | skipUnchanged =>
      simp only [Except.ok.injEq] at hstep
      rw [← hstep]
      exact applySkip_traceOK opts z _ hmid
    | write w =>
      simp only [Except.ok.injEq] at hstep
      rw [← hstep]
      exact applyWrite_traceOK opts z _ w hmid

theorem processList_traceOK (opts : MutateOptions) (z : RunStats) :
    ∀ (ds : List Doc) (st st1 : RunState),
      processList (processDoc opts) st ds = Except.ok st1 → TraceOK z st → TraceOK z st1 := by
  intro ds
  induction ds with
  | nil =>
    intro st st1 h hok
    simp only [processList, Except.ok.injEq] at h
    rw [← h]
    exact hok
  | cons d ds ih =>
    intro st st1 h hok
    simp only [processList] at h
    cases hd : processDoc opts st d with
    | error e => rw [hd] at h; simp at h
    | ok st2 =>
      rw [hd] at h
      exact ih st2 st1 h (processDoc_traceOK opts z st st2 d hd hok)

/-- C7: over one successful run the stats snapshots after each processed
document form a chain from the all-zero counters in which each step either
increments written by exactly 1 (a write) or increments ignored by exactly
1 (a skip), never both; hence written, ignored and their sum processed are
monotonically non-decreasing along the run; and at completion
total = written + ignored. -/
theorem c7_counters_monotone (opts : MutateOptions) (db : List Doc) (st : RunState)
    (hs : IdSorted db) (hok : (mutateAllDocs opts db).2 = Except.ok st) :
    List.Chain TraceStep zeroStats st.statsTrace ∧
    List.Chain (fun a b => a.written ≤ b.written ∧ a.ignored ≤ b.ignored ∧
      a.written + a.ignored ≤ b.written + b.ignored) zeroStats st.statsTrace ∧
    st.stats.total = st.stats.written + st.stats.ignored := by
  have hres := mutateAllDocs_result opts db hs
  rw [hres] at hok
  have htr : TraceOK zeroStats st := by
    apply processList_traceOK opts zeroStats db (setTotal {} db.length) st hok
    exact ⟨List.Chain.nil, rfl, rfl⟩
  have hchain := htr.1
  have hmono : List.Chain (fun a b : RunStats => a.written ≤ b.written ∧
      a.ignored ≤ b.ignored ∧ a.written + a.ignored ≤ b.written + b.ignored)
      zeroStats st.statsTrace := by
    apply List.Chain.imp ?_ hchain
    intro a b hab
    rcases hab with ⟨h1, h2⟩ | ⟨h1, h2⟩
    · rw [h1, h2]
      omega
    · rw [h1, h2]
      omega
  have htot : st.stats.total = db.length :=
    processList_total (processDoc opts) (processDoc_total opts) db _ st hok
  obtain ⟨-, hsum, -⟩ :=
    (processList_char opts db (setTotal {} db.length) st hok).2.2
  refine ⟨hchain, hmono, ?_⟩
  rw [htot]
  have hz : (setTotal ({} : RunState) db.length).stats.written = 0 := rfl
  have hz2 : (setTotal ({} : RunState) db.length).stats.ignored = 0 := rfl
  omega

/-- C7 witness: the tagging run over the mixed three-document collection:
its snapshot trace is a single-step-per-document chain from zero and its
final stats satisfy total = written + ignored. -/
theorem c7_counters_monotone_witness :
    List.Chain TraceStep zeroStats mixedFinalState.statsTrace ∧
    mixedFinalState.stats.total =
      mixedFinalState.stats.written + mixedFinalState.stats.ignored := by
  have h := c7_counters_monotone tagOptions dbMixed mixedFinalState
    (by unfold IdSorted; decide) (by rfl)
  exact ⟨h.1, h.2.2⟩

/-- C3 (amended): with a validator that returns false for every input, when
the collection decomposes as pre ++ d :: post where every document of pre is
reserved or canonically unchanged and d is the first non-reserved document
the mutator changes, the run rejects with the validation error naming the
mutated document, the processed documents are exactly pre ++ [d] (no
document after the failing one is processed), and nothing is written.
Documents after the failing one may nevertheless already have been fetched:
those sharing its page arrive with it (see the counterexample), and the
stream may schedule one more page fetch on push success before the
rejection propagates, so nothing is asserted about fetches after the
failure. -/
theorem c3_validation_abort (opts : MutateOptions) (db : List Doc)
    (pre post : List Doc) (d : Doc) (v : Doc → Bool)
    (hs : IdSorted db)
    (hv : opts.validator = some v)
    (hvf : ∀ x, v x = false)
    (hdb : db = pre ++ d :: post)
    (hpre : ∀ x ∈ pre, isDesignDoc x = true ∨
      jsonStableStringify x = jsonStableStringify (opts.mutator x))
    (hdes : isDesignDoc d = false)
    (hch : jsonStableStringify d ≠ jsonStableStringify (opts.mutator d)) :
    ∃ stE, (mutateAllDocs opts db).2 =
        Except.error (RunError.validationFailed (opts.mutator d)._id, stE) ∧
      stE.processedDocs = pre ++ [d] ∧
      stE.writtenDocs = [] ∧
      stE.stats.written = 0 := by
  subst hdb
  have hval : validatorRejects opts.validator (opts.mutator d) = true := by
    rw [hv]
    simp [validatorRejects, hvf]
  have herr := transformDoc_validation opts d hdes hch hval
  have hpreok : ∀ x ∈ pre, ∃ o, transformDoc opts x = Except.ok o := by
    intro x hx
    by_cases hdx : isDesignDoc x = true
    · exact ⟨_, transformDoc_design opts x hdx⟩
    · have hdf : isDesignDoc x = false := by simpa using hdx
      rcases hpre x hx with h | h
      · exact absurd h hdx
      · exact ⟨_, transformDoc_unchanged opts x hdf h⟩
  have hnone : ∀ x ∈ pre, writeResult opts x = none := by
    intro x hx
    by_cases hdx : isDesignDoc x = true
    · exact writeResult_eq_none_of_skip opts x _ (transformDoc_design opts x hdx)
        (fun w h => Outcome.noConfusion h)
    · have hdf : isDesignDoc x = false := by simpa using hdx
      rcases hpre x hx with h | h
      · exact absurd h hdx
      · exact writeResult_eq_none_of_skip opts x _ (transformDoc_unchanged opts x hdf h)
          (fun w h => Outcome.noConfusion h)
  have hres := mutateAllDocs_result opts (pre ++ d :: post) hs
  obtain ⟨stE, hrun, hpe, hwe, hse⟩ :=
    processList_first_err opts pre (setTotal {} (pre ++ d :: post).length) d post _ hpreok herr
  have hfm : pre.filterMap (writeResult opts) = [] := List.filterMap_eq_nil_iff.mpr hnone
  refine ⟨stE, ?_, ?_, ?_, ?_⟩
  · rw [hres]
    exact hrun
  · rw [hpe]
    simp [setTotal]
  · rw [hwe, hfm]
    simp [setTotal]
  · rw [hse, hfm]
    simp [setTotal]

/-- C3 witness: the always-false validator over the two-document collection:
the run fails on document a with the validation error, only a is processed,
and nothing is written. -/
theorem c3_validation_abort_witness :
    ∃ stE, (mutateAllDocs rejectOptions dbTwo).2 =
        Except.error (RunError.validationFailed (rejectOptions.mutator (mkDoc "a"))._id, stE) ∧
      stE.processedDocs = [] ++ [mkDoc "a"] ∧
      stE.writtenDocs = [] ∧
      stE.stats.written = 0 :=
  c3_validation_abort rejectOptions dbTwo [] [mkDoc "b"] (mkDoc "a") falseValidator
    (by unfold IdSorted; decide) rfl (fun x => rfl) rfl (by simp) (by decide) (by decide)

/-- C3 counterexample: the claim states that no document after the failing
one is fetched; but the failing document a and the later document b arrive
in the same fetched page, so b has been fetched by the time the run fails
on a — while b is indeed never processed or written. -/
theorem c3_counterexample :
    resultError (mutateAllDocs rejectOptions dbTwo).2 =
      some (RunError.validationFailed "a") ∧
    ((mutateAllDocs rejectOptions dbTwo).1.map (fun rec => rec.rows)) =
      [[mkDoc "a", mkDoc "b"]] ∧
    (errorState (mutateAllDocs rejectOptions dbTwo).2).map (fun st => st.processedDocs) =
      some [mkDoc "a"] ∧
    ¬(mkDoc "b" = mkDoc "a") := by
  refine ⟨by rfl, by rfl, by rfl, by decide⟩

